import Mathlib

/-!
Verification of `image_process.py` (virtual930/image-processor).

The Python program is shallowly embedded: PIL images become a `Img` structure
(width, height, color mode, total pixel function); PIL library primitives
(`Image.resize`, `Image.new`, `Image.convert`, `ImageFilter.GaussianBlur`,
`Image.alpha_composite`, `Image.paste`) are modelled by Lean functions that are
faithful on dimensions, color modes and paste/mask semantics — the resampling
and blur kernels themselves are third-party library code whose pixel values no
property here depends on, so they are abstracted (blur keeps its input pixels,
resize samples the source grid).  Python `float` arithmetic is modelled in two
ways, each faithful on its domain: the comparisons of `is_square` are taken
over exact rationals (they agree with binary64 on all reachable dimensions),
while the scale/product arithmetic of `resize_original`, where double rounding
is observable (`int(97 * (25/97)) = 24`), is modelled by an explicit IEEE 754
binary64 round-to-nearest-even model over integers (`F64`); `int()` on a
nonnegative float is truncation, i.e. the floor.  The filesystem is modelled
by an arbitrary existence predicate
`String → Bool`, and the unbounded `while` loop of `get_unique_output_path` by
a fuel-indexed loop whose denotation is characterised by theorems.
-/

/-- Color modes of the PIL images reachable in this program. `P` stands in for
any further mode (palette etc.) that is neither `RGB`, `RGBA` nor `L`. -/
inductive Mode where
  | RGB
  | RGBA
  | L
  | P
deriving DecidableEq, Repr

/-- Whether a color mode carries an alpha channel. -/
def Mode.hasAlpha : Mode → Bool
  | .RGBA => true
  | _ => false

/-- One pixel: red, green, blue and alpha channels. For modes without alpha
the `a` field is kept at 255 (fully opaque), matching PIL's convention that
converting to an alpha mode yields opaque pixels. -/
structure Pix where
  r : ℕ
  g : ℕ
  b : ℕ
  a : ℕ
deriving DecidableEq, Repr

/-- An in-memory decoded raster: dimensions, color mode, and a total pixel
function (queries outside the geometry are harmless and unused). -/
structure Img where
  width : ℕ
  height : ℕ
  mode : Mode
  pix : ℕ → ℕ → Pix

/-- Model of PIL `Image.new(mode, (w, h), color)`: constant image. -/
def Image.new (m : Mode) (w h : ℕ) (c : Pix) : Img :=
  ⟨w, h, m, fun _ _ => c⟩

/-- Model of PIL `Image.resize((w, h), filter)`: the output has exactly the
requested dimensions and the source's mode.  The resampling kernel (LANCZOS in
the program) is library code; its pixel values are abstracted by grid
sampling, which no theorem below depends on. -/
def Img.resize (img : Img) (w h : ℕ) : Img :=
  ⟨w, h, img.mode, fun x y => img.pix (x * img.width / w) (y * img.height / h)⟩

/-- Model of PIL `Image.convert(mode)`: the mode changes; alpha is materialised
as 255 when the source mode has none, dropped when converting away from an
alpha mode; `L` uses the ITU-R 601-2 luma transform PIL documents. -/
def Img.convert (img : Img) (m : Mode) : Img :=
  ⟨img.width, img.height, m, fun x y =>
    let p := img.pix x y
    let a := if img.mode.hasAlpha then p.a else 255
    match m with
    | .RGBA => ⟨p.r, p.g, p.b, a⟩
    | .RGB => ⟨p.r, p.g, p.b, 255⟩
    | .L =>
        let l := (p.r * 299 + p.g * 587 + p.b * 114) / 1000
        ⟨l, l, l, 255⟩
    | .P => ⟨p.r, p.g, p.b, 255⟩⟩

/-- Model of PIL `ImageFilter.GaussianBlur(radius)` applied via `filter`:
dimensions and mode are preserved; the convolution kernel is library code
abstracted here (no property below inspects blurred pixel values). -/
def Img.gaussianBlur (radius : ℕ) (img : Img) : Img :=
  ⟨img.width, img.height, img.mode, fun x y => let _ := radius; img.pix x y⟩

/-- Source-over blend of source pixel `s` with alpha `a` over destination pixel
`d`, as used by PIL paste-with-mask.  Exact at the endpoints: mask alpha 0
keeps the destination, 255 takes the source. -/
def blendPix (d s : Pix) (a : ℕ) : Pix :=
  if a = 0 then d
  else if a = 255 then s
  else ⟨(s.r * a + d.r * (255 - a)) / 255, (s.g * a + d.g * (255 - a)) / 255,
        (s.b * a + d.b * (255 - a)) / 255, (s.a * a + d.a * (255 - a)) / 255⟩

/-- Model of PIL `Image.alpha_composite(bg, fg)`: RGBA source-over compositing
of `fg` on top of `bg`; dimensions are the background's (PIL requires both to
agree). -/
def Img.alphaComposite (bg fg : Img) : Img :=
  ⟨bg.width, bg.height, .RGBA, fun x y => blendPix (bg.pix x y) (fg.pix x y) (fg.pix x y).a⟩

/-- Model of PIL `Image.paste(src, (ox, oy), mask?)`: inside the pasted region
the destination pixel is replaced (no mask) or alpha-blended using the mask's
alpha channel; outside it is untouched.  Dimensions and mode of the
destination are preserved. -/
def Img.paste (dest src : Img) (ox oy : ℕ) (mask : Option Img) : Img :=
  ⟨dest.width, dest.height, dest.mode, fun x y =>
    if ox ≤ x ∧ x < ox + src.width ∧ oy ≤ y ∧ y < oy + src.height then
      match mask with
      | none => src.pix (x - ox) (y - oy)
      | some m => blendPix (dest.pix x y) (src.pix (x - ox) (y - oy)) (m.pix (x - ox) (y - oy)).a
    else dest.pix x y⟩

namespace Defaults

/-- `Defaults.SIZE` from the source. -/
def SIZE : ℕ := 300

/-- `Defaults.SMALLEST_SIZE` from the source. -/
def SMALLEST_SIZE : ℕ := 25

/-- `Defaults.LARGEST_SIZE` from the source. -/
def LARGEST_SIZE : ℕ := 10000

/-- `Defaults.BLUR` from the source. -/
def BLUR : ℕ := 10

/-- `Defaults.SQUARE_PERCENT` from the source (`0.05`), as an exact rational. -/
def SQUARE_PERCENT : ℚ := 5 / 100

/-- `Defaults.WHITE_TRANSPARENCY` from the source (`0.33`), as an exact
rational. -/
def WHITE_TRANSPARENCY : ℚ := 33 / 100

/-- `Defaults.KEEP_EXTENSION` from the source. -/
def KEEP_EXTENSION : String := "org"

/-- `Defaults.VALID_EXTENSIONS` from the source. -/
def VALID_EXTENSIONS : List String := ["jpg", "jpeg", "bmp", "png", "webp"]

end Defaults

/-- Embedding of `is_square(width, height)` (source lines 167-174):
`width >= height * (1 - SQUARE_PERCENT) and width <= height * (1 + SQUARE_PERCENT)`,
with the float arithmetic modelled exactly over `ℚ`. -/
def is_square (width height : ℕ) : Bool :=
  decide ((height : ℚ) * (1 - Defaults.SQUARE_PERCENT) ≤ (width : ℚ)
    ∧ (width : ℚ) ≤ (height : ℚ) * (1 + Defaults.SQUARE_PERCENT))

/-- Embedding of `resize_image(image, size)` (source lines 177-185):
`image.resize((size, size), LANCZOS).convert('RGBA')`. -/
def resize_image (image : Img) (size : ℕ) : Img :=
  (Img.resize image size size).convert .RGBA

/-- A nonnegative IEEE 754 binary64 value `mantissa * 2 ^ exp`.  Mantissas
produced by `roundRatF64` lie in `[2^52, 2^53]`; the range of this program
(quotients and products of image dimensions and sizes) is far from overflow
and subnormals, so neither is modelled. -/
structure F64 where
  mantissa : ℕ
  exp : ℤ
deriving DecidableEq, Repr

/-- The rational value denoted by an `F64`. -/
def F64.val (x : F64) : ℚ :=
  (x.mantissa : ℚ) * (2 : ℚ) ^ x.exp

/-- Fuel-indexed base-2 logarithm (`Nat.log2` does not kernel-reduce). -/
def log2Aux : ℕ → ℕ → ℕ
  | 0, _ => 0
  | fuel + 1, n => if 2 ≤ n then log2Aux fuel (n / 2) + 1 else 0

/-- `⌊log₂ n⌋` for positive `n`, computable by the kernel. -/
def natLog2 (n : ℕ) : ℕ :=
  log2Aux n n

/-- Decides `2 ^ k ≤ a / b` by integer comparison. -/
def le2powQ (k : ℤ) (b a : ℕ) : Bool :=
  if 0 ≤ k then decide (b * 2 ^ k.toNat ≤ a) else decide (b ≤ a * 2 ^ (-k).toNat)

/-- `⌊log₂ (a / b)⌋` for positive `a, b`: the exponent of the binade holding
the quotient. -/
def floorLog2 (a b : ℕ) : ℤ :=
  let k0 : ℤ := (natLog2 a : ℤ) - (natLog2 b : ℤ)
  if le2powQ k0 b a then k0 else k0 - 1

/-- Round the fraction `num / den` to the nearest integer, ties to even. -/
def nearestEvenNat (num den : ℕ) : ℕ :=
  let q0 := num / den
  let r := num % den
  if den < 2 * r then q0 + 1
  else if 2 * r < den then q0
  else if q0 % 2 = 0 then q0 else q0 + 1

/-- Rewrite `a / b` as `num / den` scaled by `2 ^ e`:
`num / den = (a / b) * 2 ^ (-e)`. -/
def scaledFraction (a b : ℕ) (e : ℤ) : ℕ × ℕ :=
  if e ≤ 0 then (a * 2 ^ (-e).toNat, b) else (a, b * 2 ^ e.toNat)

/-- Correctly rounded (nearest, ties to even) binary64 value of the exact
rational `a / b`: the mantissa is the quotient scaled into `[2^52, 2^53)` and
rounded.  This is the result of Python's float true division `a / b` of two
exactly representable integers. -/
def roundRatF64 (a b : ℕ) : F64 :=
  if a = 0 then ⟨0, 0⟩
  else
    let e : ℤ := floorLog2 a b - 52
    let nd := scaledFraction a b e
    ⟨nearestEvenNat nd.1 nd.2, e⟩

/-- Binary64 product of an exactly representable integer `dim` with a binary64
value `x`: the exact product `dim * mantissa * 2 ^ exp` rounded once, which is
Python's `dim * x` for `dim < 2^53`. -/
def F64.mulNat (dim : ℕ) (x : F64) : F64 :=
  if 0 ≤ x.exp then roundRatF64 (dim * x.mantissa * 2 ^ x.exp.toNat) 1
  else roundRatF64 (dim * x.mantissa) (2 ^ (-x.exp).toNat)

/-- Python `int()` of a nonnegative binary64 value: truncation toward zero,
i.e. the floor. -/
def F64.truncNat (x : F64) : ℕ :=
  if 0 ≤ x.exp then x.mantissa * 2 ^ x.exp.toNat else x.mantissa / 2 ^ (-x.exp).toNat

/-- The double `scale = max_size / max(w, h)` of `resize_original` (source
line 226). -/
def scaleF64 (max_size m : ℕ) : F64 :=
  roundRatF64 max_size m

/-- One output dimension of `resize_original` (source line 227):
`int(dim * scale)` in binary64 arithmetic. -/
def pyResizeDim (dim max_size m : ℕ) : ℕ :=
  (F64.mulNat dim (scaleF64 max_size m)).truncNat

/-- Unit roundoff bound of binary64: relative error of one rounding. -/
def EPS : ℚ := 1 / 2 ^ 53

/-- Embedding of `resize_original(image, max_size)` (source lines 218-228):
`scale = max_size / max(w, h)` is an IEEE binary64 quotient and
`new_size = (int(w * scale), int(h * scale))` truncates the binary64 products,
exactly as CPython evaluates these expressions (dimensions are exactly
representable). -/
def resize_original (image : Img) (max_size : ℕ) : Img :=
  let m := max image.width image.height
  Img.resize image (pyResizeDim image.width max_size m) (pyResizeDim image.height max_size m)

/-- Embedding of `create_white_overlay(size)` (source lines 209-215):
`Image.new('RGBA', size, (255, 255, 255, int(255 * WHITE_TRANSPARENCY)))`. -/
def create_white_overlay (w h : ℕ) : Img :=
  Image.new .RGBA w h ⟨255, 255, 255, ⌊(255 : ℚ) * Defaults.WHITE_TRANSPARENCY⌋₊⟩

/-- Embedding of `compose_final_image(blurred_with_white, resized_original)`
(source lines 231-246): fresh RGBA canvas of the background's size, paste the
background at (0,0), then paste the RGBA-converted resized original at the
centred integer offsets using its own RGBA conversion as the mask. -/
def compose_final_image (blurred_with_white resized_original : Img) : Img :=
  let final_image := Image.new .RGBA blurred_with_white.width blurred_with_white.height ⟨0, 0, 0, 0⟩
  let final_image := final_image.paste blurred_with_white 0 0 none
  let x_offset := (final_image.width - resized_original.width) / 2
  let y_offset := (final_image.height - resized_original.height) / 2
  final_image.paste (resized_original.convert .RGBA) x_offset y_offset
    (some (resized_original.convert .RGBA))

/-- Embedding of lines 195-203 of `create_blurred_overlay`: square-resize the
source, convert to `RGB` unless already `RGB`/`L`, Gaussian-blur, then
alpha-composite the translucent white overlay on top of its RGBA conversion. -/
def blurred_with_white_layer (image : Img) (size : ℕ) : Img :=
  let resized_image := Img.resize image size size
  let resized_image :=
    if resized_image.mode ≠ .RGB ∧ resized_image.mode ≠ .L
    then resized_image.convert .RGB else resized_image
  let blurred_image := Img.gaussianBlur Defaults.BLUR resized_image
  let white_overlay := create_white_overlay blurred_image.width blurred_image.height
  Img.alphaComposite (blurred_image.convert .RGBA) white_overlay

/-- Embedding of `create_blurred_overlay(image, size)` (source lines 188-207):
compose the blurred/white background with the aspect-preserving resize of the
original. -/
def create_blurred_overlay (image : Img) (size : ℕ) : Img :=
  compose_final_image (blurred_with_white_layer image size) (resize_original image size)

/-- Model of Python `str.lower()` (ASCII range, which covers the extension
strings of this program); core `String.toLower` does not kernel-reduce, so the
character list is mapped directly. -/
def strLower (s : String) : String :=
  ⟨s.data.map Char.toLower⟩

/-- Model of Python `str.upper()` (ASCII range). -/
def strUpper (s : String) : String :=
  ⟨s.data.map Char.toUpper⟩

/-- Model of Python `str.endswith(p)`: the last `|p|` characters equal `p`. -/
def strEndsWith (s p : String) : Bool :=
  decide (s.data.drop (s.data.length - p.data.length) = p.data)

/-- Model of Python `str.split('.')` on the character list: groups between
dots, always at least one group. -/
def splitOnDot : List Char → List (List Char)
  | [] => [[]]
  | c :: cs =>
    match splitOnDot cs, decide (c = '.') with
    | acc, true => [] :: acc
    | [], false => [[c]]
    | g :: gs, false => (c :: g) :: gs

/-- Index of the last `'.'` in a character list, if any. -/
def lastDotIdx (cs : List Char) : Option ℕ :=
  ((List.range cs.length).filter fun i => decide (cs.getD i ' ' = '.')).getLast?

/-- Model of Python `os.path.splitext(p)` for plain file names (no directory
separators, which is how the program uses it on `output_path` basenames whose
directory part contains no dot): split at the last dot, unless every character
before it is itself a dot (leading-dot names have no extension). -/
def splitext (p : String) : String × String :=
  match lastDotIdx p.data with
  | none => (p, "")
  | some i =>
    if (List.range i).any (fun j => decide (p.data.getD j '.' ≠ '.')) then
      (⟨p.data.take i⟩, ⟨p.data.drop i⟩)
    else (p, "")

/-- The `n`-th collision candidate `f"{base} ({n}){extension}"` built by
`get_unique_output_path` (source line 284). -/
def collisionCandidate (base extension : String) (n : ℕ) : String :=
  base ++ " (" ++ toString n ++ ")" ++ extension

/-- The `while os.path.exists(output_path)` loop of `get_unique_output_path`
(source lines 281-287), indexed by fuel; `ex` models `os.path.exists`.
Each iteration replaces the current path by the candidate for the current
counter and increments the counter. -/
def uniqueLoop (ex : String → Bool) (base extension : String) :
    ℕ → ℕ → String → String
  | 0, _, current => current
  | fuel + 1, counter, current =>
    if ex current then
      uniqueLoop ex base extension fuel (counter + 1) (collisionCandidate base extension counter)
    else current

/-- Embedding of `get_unique_output_path(output_path)` (source lines 274-287):
split once into base and extension, then run the collision loop starting with
counter 1 on the original path.  `fuel` bounds the number of loop iterations;
the theorems below require only that it exceeds the index of some free
candidate, which is how the Python loop terminates. -/
def get_unique_output_path (ex : String → Bool) (output_path : String) (fuel : ℕ) : String :=
  let be := splitext output_path
  uniqueLoop ex be.1 be.2 fuel 1 output_path

/-- Embedding of `save_image(image, output_path, extension)` (source lines
249-272): convert to `RGB` exactly when the extension is `"JPEG"`, make the
output path unique, and hand both to the encoder.  The returned pair is the
image as passed to `image.save` and the path it is saved under. -/
def save_image (ex : String → Bool) (image : Img) (output_path : String)
    (extension : String) (fuel : ℕ) : Img × String :=
  let image := if extension = "JPEG" then image.convert .RGB else image
  let output_path := get_unique_output_path ex output_path fuel
  (image, output_path)

/-- Embedding of `process_image(input_path, output_path, size, extension)`
(source lines 136-164).  `decoded` models the outcome of `Image.open`: `none`
is a decode failure, upon which the function logs and returns without saving
(`none` here); otherwise the transform branch is chosen by `is_square`, `"JPG"`
is normalised to `"JPEG"`, and `save_image` runs. -/
def process_image (decoded : Option Img) (ex : String → Bool) (output_path : String)
    (size : ℕ) (extension : String) (fuel : ℕ) : Option (Img × String) :=
  match decoded with
  | none => none
  | some original_image =>
    let final_image :=
      if is_square original_image.width original_image.height then
        resize_image original_image size
      else
        create_blurred_overlay original_image size
    let extension := if extension = "JPG" then "JPEG" else extension
    some (save_image ex final_image output_path extension fuel)

/-- Eligibility test of the batch driver (source line 309):
`filename.lower().endswith(tuple(VALID_EXTENSIONS))`. -/
def eligible_file (filename : String) : Bool :=
  Defaults.VALID_EXTENSIONS.any fun e => strEndsWith (strLower filename) e

/-- Output extension resolution of the batch driver (source line 311):
`filename.split('.')[-1].lower()` under the keep-extension sentinel, else the
requested extension. -/
def resolved_output_extension (filename extension : String) : String :=
  if extension = Defaults.KEEP_EXTENSION then
    strLower ⟨(splitOnDot filename.data).getLastD []⟩
  else extension

/-- Output filename computation of the batch driver (source line 312):
`f"{os.path.splitext(filename)[0]}.{output_extension}"`. -/
def output_filename (filename extension : String) : String :=
  (splitext filename).1 ++ "." ++ resolved_output_extension filename extension

/-- One batch input: a directory entry name together with the decode outcome
its file would produce (`none` models a corrupt/unreadable file). -/
abbrev BatchFile := String × Option Img

/-- The per-file results of the batch (source lines 306-314): one dispatched
`process_image` future per eligible file, with the resolved output extension
uppercased as at the call site. -/
def batchResults (ex : String → Bool) (files : List BatchFile) (size : ℕ)
    (extension : String) (output_folder : String) (fuel : ℕ) : List (Option (Img × String)) :=
  (files.filter fun f => eligible_file f.1).map fun f =>
    let output_extension := resolved_output_extension f.1 extension
    let output_path := output_folder ++ "/" ++ output_filename f.1 extension
    process_image f.2 ex output_path size (strUpper output_extension) fuel

/-- Severity of the summary line the batch driver emits. -/
inductive LogLevel where
  | info
  | warning
  | error
deriving DecidableEq, Repr

/-- The final report of `folder_to_process`: the value of `processed_count`
and the message printed and logged, with its severity. -/
structure Summary where
  processed_count : ℕ
  message : String
  level : LogLevel

/-- Embedding of the reporting tail of `folder_to_process` (source lines
302-324): `processed_count` is incremented once for every future yielded by
`as_completed(futures)` — one per dispatched eligible file, successful or not —
and the summary message is chosen by comparing it with zero.  The function is
total: a zero count produces a warning-level report, not an exception. -/
def folder_to_process (ex : String → Bool) (files : List BatchFile) (size : ℕ)
    (extension : String) (output_folder : String) (fuel : ℕ) : Summary :=
  let processed_count := (batchResults ex files size extension output_folder fuel).length
  if processed_count = 0 then
    ⟨0, "No images processed. Please check the input folder for valid image files.", .warning⟩
  else
    ⟨processed_count, "Processed " ++ toString processed_count ++ " images.", .info⟩

/-- Number of dispatched pipelines that succeeded (decoded and reached the
encoder). -/
def successCount (ex : String → Bool) (files : List BatchFile) (size : ℕ)
    (extension : String) (output_folder : String) (fuel : ℕ) : ℕ :=
  ((batchResults ex files size extension output_folder fuel).filter Option.isSome).length

/-- Number of dispatched pipelines that failed (decode failure). -/
def failureCount (ex : String → Bool) (files : List BatchFile) (size : ℕ)
    (extension : String) (output_folder : String) (fuel : ℕ) : ℕ :=
  ((batchResults ex files size extension output_folder fuel).filter Option.isNone).length

/-- The per-file transform result of `process_image` (source lines 157-160),
before format normalisation and saving: direct square resize for
approximately-square inputs, blurred composite otherwise. -/
def final_image (image : Img) (size : ℕ) : Img :=
  if is_square image.width image.height then resize_image image size
  else create_blurred_overlay image size

/-- A small opaque 4x2 RGB sample raster used as a concrete witness input. -/
def sampleImage : Img :=
  ⟨4, 2, .RGB, fun _ _ => ⟨10, 20, 30, 255⟩⟩

/-- A 202x800 RGB sample raster (clearly non-square). -/
def tallImage : Img :=
  ⟨202, 800, .RGB, fun _ _ => ⟨10, 20, 30, 255⟩⟩

/-- A 50x97 RGB sample raster (non-square; exhibits the binary64 shortfall
`int(97 * (25/97)) = 24` at size 25). -/
def img5097 : Img :=
  ⟨50, 97, .RGB, fun _ _ => ⟨10, 20, 30, 255⟩⟩

/-- The members of `VALID_EXTENSIONS` whose image format lacks alpha support.
Modelled from the spec (the encoder itself is the PIL library, outside this
repository): §4.4 singles out the `jpg`/`jpeg` family, normalised to the
encoder name `JPEG`, as the opaque target; PNG and WEBP (and PIL's BMP
encoder) accept alpha. -/
def alphaless_valid_extensions : List String := ["jpg", "jpeg"]

/-- A concrete filesystem for the C6 witness: exactly `out.png` and
`out (1).png` exist. -/
def witnessFS : String → Bool :=
  fun s => decide (s = "out.png" ∨ s = "out (1).png")

lemma resize_original_width_def (image : Img) (size : ℕ) :
    (resize_original image size).width
      = pyResizeDim image.width size (max image.width image.height) := rfl

lemma resize_original_height_def (image : Img) (size : ℕ) :
    (resize_original image size).height
      = pyResizeDim image.height size (max image.width image.height) := rfl

lemma log2Aux_bounds : ∀ fuel n, 0 < n → n ≤ fuel →
    2 ^ log2Aux fuel n ≤ n ∧ n < 2 ^ (log2Aux fuel n + 1) := by
  intro fuel
  induction fuel with
  | zero =>
    intro n h1 h2
    omega
  | succ f ih =>
    intro n h1 h2
    rw [log2Aux]
    by_cases h : 2 ≤ n
    · rw [if_pos h]
      obtain ⟨hb1, hb2⟩ := ih (n / 2) (by omega) (by omega)
      have e1 : (2 : ℕ) ^ (log2Aux f (n / 2) + 1) = 2 ^ log2Aux f (n / 2) * 2 :=
        pow_succ 2 _
      have e2 : (2 : ℕ) ^ (log2Aux f (n / 2) + 1 + 1) = 2 ^ log2Aux f (n / 2) * 2 * 2 := by
        rw [pow_succ, pow_succ]
      rw [e1] at hb2
      constructor
      · rw [e1]
        omega
      · rw [e2]
        omega
    · rw [if_neg h]
      have hn : n = 1 := by omega
      subst hn
      norm_num

lemma natLog2_bounds (n : ℕ) (h : 0 < n) :
    2 ^ natLog2 n ≤ n ∧ n < 2 ^ (natLog2 n + 1) :=
  log2Aux_bounds n n h le_rfl

lemma le2powQ_true {k : ℤ} {b a : ℕ} (hb : 0 < b) (h : le2powQ k b a = true) :
    (2 : ℚ) ^ k ≤ (a : ℚ) / b := by
  have hbq : (0 : ℚ) < b := by exact_mod_cast hb
  rw [le_div_iff₀ hbq]
  unfold le2powQ at h
  by_cases hk : 0 ≤ k
  · rw [if_pos hk, decide_eq_true_eq] at h
    have hcast : ((b : ℚ)) * (2 : ℚ) ^ k.toNat ≤ (a : ℚ) := by exact_mod_cast h
    have hzp : (2 : ℚ) ^ k = (2 : ℚ) ^ k.toNat := by
      rw [← zpow_natCast (2 : ℚ) k.toNat, Int.toNat_of_nonneg hk]
    rw [hzp]
    linarith
  · rw [if_neg hk, decide_eq_true_eq] at h
    have hcast : (b : ℚ) ≤ (a : ℚ) * (2 : ℚ) ^ (-k).toNat := by exact_mod_cast h
    have hzp : (2 : ℚ) ^ k * (2 : ℚ) ^ ((-k).toNat : ℕ) = 1 := by
      rw [← zpow_natCast (2 : ℚ) (-k).toNat,
        ← zpow_add₀ (by norm_num : (2 : ℚ) ≠ 0),
        show k + (((-k).toNat : ℕ) : ℤ) = 0 from by omega, zpow_zero]
    have hpow : (0 : ℚ) < (2 : ℚ) ^ k := by positivity
    calc (2 : ℚ) ^ k * b ≤ (2 : ℚ) ^ k * ((a : ℚ) * (2 : ℚ) ^ (-k).toNat) :=
          mul_le_mul_of_nonneg_left hcast hpow.le
    _ = (a : ℚ) * ((2 : ℚ) ^ k * (2 : ℚ) ^ ((-k).toNat : ℕ)) := by ring
    _ = a := by rw [hzp, mul_one]

lemma floorLog2_le (a b : ℕ) (ha : 0 < a) (hb : 0 < b) :
    (2 : ℚ) ^ floorLog2 a b ≤ (a : ℚ) / b := by
  unfold floorLog2
  by_cases h : le2powQ ((natLog2 a : ℤ) - (natLog2 b : ℤ)) b a = true
  · rw [if_pos h]
    exact le2powQ_true hb h
  · rw [if_neg (by simpa using h)]
    obtain ⟨ha1, -⟩ := natLog2_bounds a ha
    obtain ⟨-, hb2⟩ := natLog2_bounds b hb
    have hbq : (0 : ℚ) < b := by exact_mod_cast hb
    have hA : ((2 : ℚ)) ^ (natLog2 a : ℕ) ≤ (a : ℚ) := by exact_mod_cast ha1
    have hB : (b : ℚ) ≤ (2 : ℚ) ^ (natLog2 b + 1 : ℕ) := by exact_mod_cast hb2.le
    have hdiv : ((2 : ℚ)) ^ (natLog2 a : ℕ) / (2 : ℚ) ^ (natLog2 b + 1 : ℕ) ≤ (a : ℚ) / b :=
      div_le_div₀ (by positivity) hA hbq hB
    refine le_trans (le_of_eq ?_) hdiv
    rw [show (natLog2 a : ℤ) - (natLog2 b : ℤ) - 1
          = (natLog2 a : ℤ) - ((natLog2 b + 1 : ℕ) : ℤ) from by push_cast; ring,
      zpow_sub₀ (by norm_num : (2 : ℚ) ≠ 0), zpow_natCast, zpow_natCast]

lemma nearestEvenNat_ge (num den : ℕ) : num / den ≤ nearestEvenNat num den := by
  simp only [nearestEvenNat]
  split_ifs <;> omega

lemma nearestEvenNat_err (num den : ℕ) (hd : 0 < den) :
    |(nearestEvenNat num den : ℚ) * den - num| ≤ (den : ℚ) / 2 := by
  have hmod := Nat.div_add_mod num den
  have hr : num % den < den := Nat.mod_lt _ hd
  have hnum : (num : ℚ) = (den : ℚ) * (num / den : ℕ) + (num % den : ℕ) := by
    exact_mod_cast hmod.symm
  have hrq : ((num % den : ℕ) : ℚ) < den := by exact_mod_cast hr
  have hrq0 : (0 : ℚ) ≤ ((num % den : ℕ) : ℚ) := by positivity
  simp only [nearestEvenNat]
  split_ifs with h1 h2 h3
  · have hb : (den : ℚ) < 2 * ((num % den : ℕ) : ℚ) := by exact_mod_cast h1
    have he : ((num / den + 1 : ℕ) : ℚ) * den - num = (den : ℚ) - (num % den : ℕ) := by
      rw [hnum]
      push_cast
      ring
    rw [he, abs_of_nonneg (by linarith)]
    linarith
  · have hb : 2 * ((num % den : ℕ) : ℚ) < den := by exact_mod_cast h2
    have he : ((num / den : ℕ) : ℚ) * den - num = -((num % den : ℕ) : ℚ) := by
      rw [hnum]
      ring
    rw [he, abs_neg, abs_of_nonneg hrq0]
    linarith
  · have hb : (den : ℕ) = 2 * (num % den) := by omega
    have hbq : (den : ℚ) = 2 * ((num % den : ℕ) : ℚ) := by exact_mod_cast hb
    have he : ((num / den : ℕ) : ℚ) * den - num = -((num % den : ℕ) : ℚ) := by
      rw [hnum]
      ring
    rw [he, abs_neg, abs_of_nonneg hrq0]
    linarith
  · have hb : (den : ℕ) = 2 * (num % den) := by omega
    have hbq : (den : ℚ) = 2 * ((num % den : ℕ) : ℚ) := by exact_mod_cast hb
    have he : ((num / den + 1 : ℕ) : ℚ) * den - num = (den : ℚ) - (num % den : ℕ) := by
      rw [hnum]
      push_cast
      ring
    rw [he, abs_of_nonneg (by linarith)]
    linarith

lemma scaledFraction_den_pos (a b : ℕ) (e : ℤ) (hb : 0 < b) :
    0 < (scaledFraction a b e).2 := by
  unfold scaledFraction
  split_ifs <;> simp <;> positivity

lemma scaledFraction_val (a b : ℕ) (e : ℤ) (hb : 0 < b) :
    ((scaledFraction a b e).1 : ℚ) / ((scaledFraction a b e).2 : ℚ)
      = ((a : ℚ) / b) * (2 : ℚ) ^ (-e) := by
  have hbq : (0 : ℚ) < b := by exact_mod_cast hb
  unfold scaledFraction
  split_ifs with h
  · have h2 : ((2 : ℚ) ^ ((-e).toNat : ℕ)) = (2 : ℚ) ^ (-e) := by
      rw [← zpow_natCast (2 : ℚ) (-e).toNat, Int.toNat_of_nonneg (by omega)]
    push_cast
    rw [h2]
    ring
  · have h2 : ((2 : ℚ) ^ (e.toNat : ℕ)) = (2 : ℚ) ^ e := by
      rw [← zpow_natCast (2 : ℚ) e.toNat, Int.toNat_of_nonneg (by omega)]
    push_cast
    rw [h2, zpow_neg]
    ring

lemma roundRatF64_err (a b : ℕ) (ha : 0 < a) (hb : 0 < b) :
    |(roundRatF64 a b).val - (a : ℚ) / b| ≤ ((a : ℚ) / b) * EPS := by
  have hane : a ≠ 0 := ha.ne'
  have hd2 : 0 < (scaledFraction a b (floorLog2 a b - 52)).2 :=
    scaledFraction_den_pos a b _ hb
  have hd2q : (0 : ℚ) < (scaledFraction a b (floorLog2 a b - 52)).2 := by exact_mod_cast hd2
  set e : ℤ := floorLog2 a b - 52 with hedef
  set n1 := (scaledFraction a b e).1 with hn1
  set d1 := (scaledFraction a b e).2 with hd1
  have hval : (roundRatF64 a b).val = (nearestEvenNat n1 d1 : ℚ) * (2 : ℚ) ^ e := by
    simp only [roundRatF64, if_neg hane, F64.val, hedef, hn1, hd1]
  have hfrac : (n1 : ℚ) / d1 = ((a : ℚ) / b) * (2 : ℚ) ^ (-e) := scaledFraction_val a b e hb
  have herr2 : |(nearestEvenNat n1 d1 : ℚ) - (n1 : ℚ) / d1| ≤ 1 / 2 := by
    have h1 : (nearestEvenNat n1 d1 : ℚ) - (n1 : ℚ) / d1
        = ((nearestEvenNat n1 d1 : ℚ) * d1 - n1) / d1 := by
      field_simp
    rw [h1, abs_div, abs_of_pos hd2q, div_le_iff₀ hd2q]
    calc |(nearestEvenNat n1 d1 : ℚ) * d1 - n1| ≤ (d1 : ℚ) / 2 := nearestEvenNat_err n1 d1 hd2
    _ = 1 / 2 * d1 := by ring
  have hKle : (2 : ℚ) ^ floorLog2 a b ≤ (a : ℚ) / b := floorLog2_le a b ha hb
  have hpow : (0 : ℚ) < (2 : ℚ) ^ e := by positivity
  have hcancel : (2 : ℚ) ^ (-e) * (2 : ℚ) ^ e = 1 := by
    rw [← zpow_add₀ (by norm_num : (2 : ℚ) ≠ 0)]
    norm_num
  have key : (roundRatF64 a b).val - (a : ℚ) / b
      = ((nearestEvenNat n1 d1 : ℚ) - (n1 : ℚ) / d1) * (2 : ℚ) ^ e := by
    rw [hval, hfrac]
    have expand : ((nearestEvenNat n1 d1 : ℚ) - ((a : ℚ) / b) * (2 : ℚ) ^ (-e)) * (2 : ℚ) ^ e
        = (nearestEvenNat n1 d1 : ℚ) * (2 : ℚ) ^ e
          - ((a : ℚ) / b) * ((2 : ℚ) ^ (-e) * (2 : ℚ) ^ e) := by
      ring
    rw [expand, hcancel, mul_one]
  rw [key, abs_mul, abs_of_pos hpow]
  have step1 : |(nearestEvenNat n1 d1 : ℚ) - (n1 : ℚ) / d1| * (2 : ℚ) ^ e
      ≤ 1 / 2 * (2 : ℚ) ^ e := mul_le_mul_of_nonneg_right herr2 hpow.le
  have step2 : 1 / 2 * (2 : ℚ) ^ e = (2 : ℚ) ^ (floorLog2 a b) * (2 : ℚ) ^ (-53 : ℤ) := by
    rw [hedef, show (floorLog2 a b - 52 : ℤ) = floorLog2 a b + (-53) + 1 from by ring,
      zpow_add₀ (by norm_num : (2 : ℚ) ≠ 0), zpow_add₀ (by norm_num : (2 : ℚ) ≠ 0)]
    norm_num
    ring
  have hE : EPS = (2 : ℚ) ^ (-53 : ℤ) := by
    rw [EPS, show (-53 : ℤ) = -(53 : ℕ) from by norm_num, zpow_neg, zpow_natCast]
    norm_num
  have step3 : (2 : ℚ) ^ (floorLog2 a b) * (2 : ℚ) ^ (-53 : ℤ) ≤ ((a : ℚ) / b) * EPS := by
    rw [hE]
    exact mul_le_mul_of_nonneg_right hKle (by positivity)
  linarith

lemma roundRatF64_mantissa_pos (a b : ℕ) (ha : 0 < a) (hb : 0 < b) :
    0 < (roundRatF64 a b).mantissa := by
  have hane : a ≠ 0 := ha.ne'
  have hd2 : 0 < (scaledFraction a b (floorLog2 a b - 52)).2 :=
    scaledFraction_den_pos a b _ hb
  have hd2q : (0 : ℚ) < (scaledFraction a b (floorLog2 a b - 52)).2 := by exact_mod_cast hd2
  set e : ℤ := floorLog2 a b - 52 with hedef
  set n1 := (scaledFraction a b e).1 with hn1
  set d1 := (scaledFraction a b e).2 with hd1
  have hman : (roundRatF64 a b).mantissa = nearestEvenNat n1 d1 := by
    simp only [roundRatF64, if_neg hane, hedef, hn1, hd1]
  have hfrac : (n1 : ℚ) / d1 = ((a : ℚ) / b) * (2 : ℚ) ^ (-e) := scaledFraction_val a b e hb
  have hKle : (2 : ℚ) ^ floorLog2 a b ≤ (a : ℚ) / b := floorLog2_le a b ha hb
  have h52 : (2 : ℚ) ^ floorLog2 a b * (2 : ℚ) ^ (-e) = (2 : ℚ) ^ (52 : ℤ) := by
    rw [← zpow_add₀ (by norm_num : (2 : ℚ) ≠ 0), hedef]
    norm_num
  have hone : (1 : ℚ) ≤ (2 : ℚ) ^ (52 : ℤ) := by
    rw [show (52 : ℤ) = ((52 : ℕ) : ℤ) from rfl, zpow_natCast]
    norm_num
  have hmu : (1 : ℚ) ≤ (n1 : ℚ) / d1 := by
    rw [hfrac]
    calc (1 : ℚ) ≤ (2 : ℚ) ^ (52 : ℤ) := hone
    _ = (2 : ℚ) ^ floorLog2 a b * (2 : ℚ) ^ (-e) := h52.symm
    _ ≤ ((a : ℚ) / b) * (2 : ℚ) ^ (-e) := mul_le_mul_of_nonneg_right hKle (by positivity)
  have hled : (d1 : ℚ) ≤ n1 := by
    have := (le_div_iff₀ hd2q).mp hmu
    linarith
  have hledn : d1 ≤ n1 := by exact_mod_cast hled
  have hq1 : 1 ≤ n1 / d1 := (Nat.one_le_div_iff hd2).mpr hledn
  have := nearestEvenNat_ge n1 d1
  rw [hman]
  omega

lemma truncNat_eq_floor (x : F64) : x.truncNat = ⌊x.val⌋₊ := by
  unfold F64.truncNat F64.val
  split_ifs with h
  · have hc : (2 : ℚ) ^ x.exp = ((2 ^ x.exp.toNat : ℕ) : ℚ) := by
      push_cast
      rw [← zpow_natCast (2 : ℚ) x.exp.toNat, Int.toNat_of_nonneg h]
    rw [hc, ← Nat.cast_mul, Nat.floor_natCast]
  · have hc : (x.mantissa : ℚ) * (2 : ℚ) ^ x.exp
        = ((x.mantissa : ℕ) : ℚ) / ((2 ^ (-x.exp).toNat : ℕ) : ℚ) := by
      push_cast
      rw [← zpow_natCast (2 : ℚ) (-x.exp).toNat, Int.toNat_of_nonneg (by omega : (0:ℤ) ≤ -x.exp),
        div_eq_mul_inv, ← zpow_neg, neg_neg]
    rw [hc, Nat.floor_div_nat, Nat.floor_natCast]

lemma F64.val_pos (x : F64) (hm : 0 < x.mantissa) : 0 < x.val := by
  unfold F64.val
  have h1 : (0 : ℚ) < x.mantissa := by exact_mod_cast hm
  have h2 : (0 : ℚ) < (2 : ℚ) ^ x.exp := by positivity
  exact mul_pos h1 h2

lemma mulNat_err (dim : ℕ) (x : F64) (hd : 0 < dim) (hm : 0 < x.mantissa) :
    |(F64.mulNat dim x).val - (dim : ℚ) * x.val| ≤ ((dim : ℚ) * x.val) * EPS := by
  unfold F64.mulNat
  split_ifs with h
  · have key := roundRatF64_err (dim * x.mantissa * 2 ^ x.exp.toNat) 1 (by positivity) one_pos
    have hval : ((dim * x.mantissa * 2 ^ x.exp.toNat : ℕ) : ℚ) / ((1 : ℕ) : ℚ)
        = (dim : ℚ) * x.val := by
      unfold F64.val
      push_cast
      rw [← zpow_natCast (2 : ℚ) x.exp.toNat, Int.toNat_of_nonneg h]
      ring
    rwa [hval] at key
  · have h2 : (0 : ℕ) < 2 ^ (-x.exp).toNat := by positivity
    have key := roundRatF64_err (dim * x.mantissa) (2 ^ (-x.exp).toNat) (by positivity) h2
    have hval : ((dim * x.mantissa : ℕ) : ℚ) / ((2 ^ (-x.exp).toNat : ℕ) : ℚ)
        = (dim : ℚ) * x.val := by
      unfold F64.val
      push_cast
      rw [← zpow_natCast (2 : ℚ) (-x.exp).toNat,
        Int.toNat_of_nonneg (by omega : (0:ℤ) ≤ -x.exp), div_eq_mul_inv, ← zpow_neg, neg_neg]
      ring
    rwa [hval] at key

/-- C2 counterexample: for the 202x800 source (a non-square input, so the
composite transform runs) and target size 300, the scale is 300/800 and
`202 * scale = 75.75`; the code truncates (`int`) to width 75, whereas the
claimed rounding would give 76. -/
theorem C2_counterexample :
    is_square 202 800 = false ∧
    (resize_original tallImage 300).width = 75 ∧
    round ((202 : ℚ) * ((300 : ℚ) / ((max 202 800 : ℕ) : ℚ))) = 76 ∧
    ((resize_original tallImage 300).width : ℤ)
      ≠ round ((202 : ℚ) * ((300 : ℚ) / ((max 202 800 : ℕ) : ℚ))) := by
  have hw : (resize_original tallImage 300).width = 75 := by decide
  have hr : round ((202 : ℚ) * ((300 : ℚ) / ((max 202 800 : ℕ) : ℚ))) = 76 := by
    norm_num [round_eq]
  refine ⟨?_, hw, hr, ?_⟩
  · simp only [is_square, Defaults.SQUARE_PERCENT, decide_eq_false_iff_not, not_and, not_le]
    intro h
    norm_num at h
  · rw [hw, hr]
    decide

/-- C2 (amended): inside the composite transform, the aspect-preserving resize
of the original uses the binary64 scale `fl(size / max(w, h))` and produces
output dimensions `(int(fl(w * scale)), int(fl(h * scale)))` — each output
dimension is the truncation (the floor), not the rounding, of the
double-precision product `original_dimension * scale`. -/
theorem C2_resize_original_truncates (image : Img) (size : ℕ) :
    (resize_original image size).width
        = ⌊(F64.mulNat image.width (scaleF64 size (max image.width image.height))).val⌋₊ ∧
    (resize_original image size).height
        = ⌊(F64.mulNat image.height (scaleF64 size (max image.width image.height))).val⌋₊ :=
  ⟨truncNat_eq_floor _, truncNat_eq_floor _⟩

/-- C4: `is_square(w, h)` is true exactly when
`h*(1-0.05) <= w <= h*(1+0.05)`, both bounds inclusive (equivalently
`19h <= 20w` and `20w <= 21h`), and the formula is width-anchored and genuinely
asymmetric: 95x100 counts as square while 100x95 does not. -/
theorem C4_is_square_formula :
    (∀ w h : ℕ, 0 < w → 0 < h →
      ((is_square w h = true ↔
          (h : ℚ) * (1 - 5/100) ≤ (w : ℚ) ∧ (w : ℚ) ≤ (h : ℚ) * (1 + 5/100)) ∧
        (is_square w h = true ↔ 19 * h ≤ 20 * w ∧ 20 * w ≤ 21 * h))) ∧
    is_square 95 100 = true ∧ is_square 100 95 = false := by
  refine ⟨fun w h _ _ => ?_, ?_, ?_⟩
  · have base : is_square w h = true ↔
        (h : ℚ) * (1 - 5/100) ≤ (w : ℚ) ∧ (w : ℚ) ≤ (h : ℚ) * (1 + 5/100) := by
      simp [is_square, Defaults.SQUARE_PERCENT]
    refine ⟨base, base.trans ?_⟩
    constructor
    · rintro ⟨h1, h2⟩
      constructor
      · have : (19 * h : ℚ) ≤ 20 * w := by linarith
        exact_mod_cast this
      · have : (20 * w : ℚ) ≤ 21 * h := by linarith
        exact_mod_cast this
    · rintro ⟨h1, h2⟩
      have h1q : (19 * h : ℚ) ≤ 20 * w := by exact_mod_cast h1
      have h2q : (20 * w : ℚ) ≤ 21 * h := by exact_mod_cast h2
      constructor
      · linarith
      · linarith
  · simp only [is_square, Defaults.SQUARE_PERCENT, decide_eq_true_eq]
    norm_num
  · simp only [is_square, Defaults.SQUARE_PERCENT, decide_eq_false_iff_not, not_and, not_le]
    intro h
    norm_num

/-- C4 witness: the characterisation instantiated at 19x20 (on the lower
boundary: `20*(1-0.05) = 19`, so it is classified square). -/
theorem C4_is_square_formula_witness :
    0 < 19 ∧ 0 < 20 ∧
    ((is_square 19 20 = true ↔
        (20 : ℚ) * (1 - 5/100) ≤ (19 : ℚ) ∧ (19 : ℚ) ≤ (20 : ℚ) * (1 + 5/100)) ∧
      (is_square 19 20 = true ↔ 19 * 20 ≤ 20 * 19 ∧ 20 * 19 ≤ 21 * 20)) :=
  ⟨by decide, by decide, C4_is_square_formula.1 19 20 (by decide) (by decide)⟩

/-- C7: the square-branch resize yields exactly `size x size` in the
alpha-capable `RGBA` mode, whatever the input dimensions and aspect ratio. -/
theorem C7_resize_square_dims (image : Img) (size : ℕ)
    (_hw : 0 < image.width) (_hh : 0 < image.height)
    (_hs : Defaults.SMALLEST_SIZE ≤ size ∧ size ≤ Defaults.LARGEST_SIZE) :
    (resize_image image size).width = size ∧
    (resize_image image size).height = size ∧
    (resize_image image size).mode = Mode.RGBA ∧
    (resize_image image size).mode.hasAlpha = true :=
  ⟨rfl, rfl, rfl, rfl⟩

/-- C7 witness: the guarantee instantiated at the 202x800 sample and size 300. -/
theorem C7_resize_square_dims_witness :
    0 < tallImage.width ∧ 0 < tallImage.height ∧
    (Defaults.SMALLEST_SIZE ≤ 300 ∧ 300 ≤ Defaults.LARGEST_SIZE) ∧
    ((resize_image tallImage 300).width = 300 ∧
      (resize_image tallImage 300).height = 300 ∧
      (resize_image tallImage 300).mode = Mode.RGBA ∧
      (resize_image tallImage 300).mode.hasAlpha = true) :=
  ⟨by decide, by decide, by decide,
    C7_resize_square_dims tallImage 300 (by decide) (by decide) (by decide)⟩

lemma final_image_mode (image : Img) (size : ℕ) :
    (final_image image size).mode = Mode.RGBA := by
  unfold final_image
  split <;> rfl

/-- C10: whichever transform branch runs, the image handed to the save step is
in `RGBA` mode; inside save, alpha is dropped (conversion to `RGB`) exactly
when the resolved output format is `"JPEG"`, and kept for every other format. -/
theorem C10_rgba_invariant (image : Img) (size : ℕ)
    (_hw : 0 < image.width) (_hh : 0 < image.height)
    (_hs : Defaults.SMALLEST_SIZE ≤ size ∧ size ≤ Defaults.LARGEST_SIZE) :
    (final_image image size).mode = Mode.RGBA ∧
    ∀ (ex : String → Bool) (p fmt : String) (fuel : ℕ),
      ((save_image ex (final_image image size) p fmt fuel).1.mode = Mode.RGB ↔ fmt = "JPEG") ∧
      ((save_image ex (final_image image size) p fmt fuel).1.mode = Mode.RGBA ↔ fmt ≠ "JPEG") := by
  refine ⟨final_image_mode image size, fun ex p fmt fuel => ?_⟩
  by_cases hf : fmt = "JPEG"
  · subst hf
    simp [save_image, Img.convert]
  · simp [save_image, hf, final_image_mode image size]

/-- C10 witness: the invariant instantiated at the 202x800 sample and size 300. -/
theorem C10_rgba_invariant_witness :
    0 < tallImage.width ∧ 0 < tallImage.height ∧
    (Defaults.SMALLEST_SIZE ≤ 300 ∧ 300 ≤ Defaults.LARGEST_SIZE) ∧
    ((final_image tallImage 300).mode = Mode.RGBA ∧
      ∀ (ex : String → Bool) (p fmt : String) (fuel : ℕ),
        ((save_image ex (final_image tallImage 300) p fmt fuel).1.mode = Mode.RGB ↔ fmt = "JPEG") ∧
        ((save_image ex (final_image tallImage 300) p fmt fuel).1.mode = Mode.RGBA ↔ fmt ≠ "JPEG")) :=
  ⟨by decide, by decide, by decide,
    C10_rgba_invariant tallImage 300 (by decide) (by decide) (by decide)⟩

/-- C3: for the alpha-lacking output formats, the save step converts the image
to a non-alpha mode (`RGB`) immediately before encoding, and only there: the
image arriving at the save step from either transform still carries alpha
(`RGBA`), so no upstream transform performed that conversion. -/
theorem C3_alphaless_conversion_at_save (image : Img) (size : ℕ) (e : String)
    (_hw : 0 < image.width) (_hh : 0 < image.height)
    (he : e ∈ alphaless_valid_extensions) :
    (final_image image size).mode.hasAlpha = true ∧
    (if strUpper e = "JPG" then "JPEG" else strUpper e) = "JPEG" ∧
    ∀ (ex : String → Bool) (p : String) (fuel : ℕ),
      (save_image ex (final_image image size) p
          (if strUpper e = "JPG" then "JPEG" else strUpper e) fuel).1.mode = Mode.RGB ∧
      (save_image ex (final_image image size) p
          (if strUpper e = "JPG" then "JPEG" else strUpper e) fuel).1.mode.hasAlpha = false := by
  have hres : (if strUpper e = "JPG" then "JPEG" else strUpper e) = "JPEG" := by
    simp only [alphaless_valid_extensions, List.mem_cons, List.not_mem_nil, or_false] at he
    rcases he with rfl | rfl <;> decide
  refine ⟨by simp [final_image_mode, Mode.hasAlpha], hres, fun ex p fuel => ?_⟩
  rw [hres]
  exact ⟨rfl, rfl⟩

/-- C3 witness: the conversion rule instantiated at the 202x800 sample, size
300 and requested extension `"jpg"`. -/
theorem C3_alphaless_conversion_at_save_witness :
    0 < tallImage.width ∧ 0 < tallImage.height ∧ "jpg" ∈ alphaless_valid_extensions ∧
    ((final_image tallImage 300).mode.hasAlpha = true ∧
      (if strUpper "jpg" = "JPG" then "JPEG" else strUpper "jpg") = "JPEG" ∧
      ∀ (ex : String → Bool) (p : String) (fuel : ℕ),
        (save_image ex (final_image tallImage 300) p
            (if strUpper "jpg" = "JPG" then "JPEG" else strUpper "jpg") fuel).1.mode = Mode.RGB ∧
        (save_image ex (final_image tallImage 300) p
            (if strUpper "jpg" = "JPG" then "JPEG" else strUpper "jpg") fuel).1.mode.hasAlpha = false) :=
  ⟨by decide, by decide, by decide,
    C3_alphaless_conversion_at_save tallImage 300 "jpg" (by decide) (by decide) (by decide)⟩

lemma blurred_with_white_layer_width (image : Img) (size : ℕ) :
    (blurred_with_white_layer image size).width = size := by
  simp only [blurred_with_white_layer, Img.alphaComposite, Img.convert, Img.gaussianBlur]
  split <;> rfl

lemma blurred_with_white_layer_height (image : Img) (size : ℕ) :
    (blurred_with_white_layer image size).height = size := by
  simp only [blurred_with_white_layer, Img.alphaComposite, Img.convert, Img.gaussianBlur]
  split <;> rfl

lemma create_blurred_overlay_width (image : Img) (size : ℕ) :
    (create_blurred_overlay image size).width = size := by
  simp only [create_blurred_overlay, compose_final_image, Img.paste, Image.new]
  exact blurred_with_white_layer_width image size

lemma create_blurred_overlay_height (image : Img) (size : ℕ) :
    (create_blurred_overlay image size).height = size := by
  simp only [create_blurred_overlay, compose_final_image, Img.paste, Image.new]
  exact blurred_with_white_layer_height image size

lemma scaleF64_bounds (size m : ℕ) (hsize : 0 < size) (hm : 0 < m) :
    0 < (scaleF64 size m).val ∧
    ((size : ℚ) / m) * (1 - EPS) ≤ (scaleF64 size m).val ∧
    (scaleF64 size m).val ≤ ((size : ℚ) / m) * (1 + EPS) := by
  have herr : |(scaleF64 size m).val - (size : ℚ) / m| ≤ ((size : ℚ) / m) * EPS :=
    roundRatF64_err size m hsize hm
  obtain ⟨h1, h2⟩ := abs_le.mp herr
  have hpos : 0 < (scaleF64 size m).val :=
    F64.val_pos _ (roundRatF64_mantissa_pos size m hsize hm)
  refine ⟨hpos, ?_, ?_⟩
  · have expand : ((size : ℚ) / m) * (1 - EPS) = (size : ℚ) / m - ((size : ℚ) / m) * EPS := by
      ring
    rw [expand]
    linarith [h1]
  · have expand : ((size : ℚ) / m) * (1 + EPS) = (size : ℚ) / m + ((size : ℚ) / m) * EPS := by
      ring
    rw [expand]
    linarith [h2]

lemma pyResizeDim_floor (dim size m : ℕ) (hdim : 0 < dim) (hsize : 0 < size) (hm : 0 < m) :
    pyResizeDim dim size m = ⌊(F64.mulNat dim (scaleF64 size m)).val⌋₊ ∧
    (dim : ℚ) * (scaleF64 size m).val * (1 - EPS)
        ≤ (F64.mulNat dim (scaleF64 size m)).val ∧
    (F64.mulNat dim (scaleF64 size m)).val
        ≤ (dim : ℚ) * (scaleF64 size m).val * (1 + EPS) := by
  have hmant := roundRatF64_mantissa_pos size m hsize hm
  have herr := mulNat_err dim (scaleF64 size m) hdim hmant
  obtain ⟨h1, h2⟩ := abs_le.mp herr
  refine ⟨truncNat_eq_floor _, ?_, ?_⟩
  · have expand : (dim : ℚ) * (scaleF64 size m).val * (1 - EPS)
        = (dim : ℚ) * (scaleF64 size m).val - (dim : ℚ) * (scaleF64 size m).val * EPS := by
      ring
    rw [expand]
    linarith [h1]
  · have expand : (dim : ℚ) * (scaleF64 size m).val * (1 + EPS)
        = (dim : ℚ) * (scaleF64 size m).val + (dim : ℚ) * (scaleF64 size m).val * EPS := by
      ring
    rw [expand]
    linarith [h2]

lemma pyResizeDim_le (dim size m : ℕ) (hdim : 0 < dim) (hle : dim ≤ m)
    (hsize : 0 < size) (hbig : size ≤ 2 ^ 50) :
    pyResizeDim dim size m ≤ size := by
  have hm : 0 < m := lt_of_lt_of_le hdim hle
  obtain ⟨hfl, hlb, hub⟩ := pyResizeDim_floor dim size m hdim hsize hm
  obtain ⟨hS0, hSlb, hSub⟩ := scaleF64_bounds size m hsize hm
  have hmq : (0 : ℚ) < m := by exact_mod_cast hm
  have hdq : (0 : ℚ) ≤ dim := by positivity
  have hdm : (dim : ℚ) ≤ m := by exact_mod_cast hle
  have hsq : (0 : ℚ) < size := by exact_mod_cast hsize
  have hsb : (size : ℚ) ≤ 2 ^ 50 := by exact_mod_cast hbig
  have hq : (dim : ℚ) * ((size : ℚ) / m) ≤ size := by
    rw [mul_div_assoc']
    rw [div_le_iff₀ hmq]
    nlinarith
  have h1 : (dim : ℚ) * (scaleF64 size m).val ≤ (size : ℚ) * (1 + EPS) := by
    calc (dim : ℚ) * (scaleF64 size m).val
        ≤ (dim : ℚ) * (((size : ℚ) / m) * (1 + EPS)) := mul_le_mul_of_nonneg_left hSub hdq
    _ = ((dim : ℚ) * ((size : ℚ) / m)) * (1 + EPS) := by ring
    _ ≤ (size : ℚ) * (1 + EPS) := by
        have hE : (0 : ℚ) ≤ 1 + EPS := by norm_num [EPS]
        exact mul_le_mul_of_nonneg_right hq hE
  have h2 : (F64.mulNat dim (scaleF64 size m)).val ≤ (size : ℚ) * (1 + EPS) * (1 + EPS) := by
    calc (F64.mulNat dim (scaleF64 size m)).val
        ≤ (dim : ℚ) * (scaleF64 size m).val * (1 + EPS) := hub
    _ ≤ (size : ℚ) * (1 + EPS) * (1 + EPS) := by
        have hE : (0 : ℚ) ≤ 1 + EPS := by norm_num [EPS]
        exact mul_le_mul_of_nonneg_right h1 hE
  have h3 : (size : ℚ) * (1 + EPS) * (1 + EPS) < size + 1 := by
    have hb1 : (size : ℚ) * (2 * EPS + EPS * EPS) ≤ (2 : ℚ) ^ 50 * (2 * EPS + EPS * EPS) := by
      apply mul_le_mul_of_nonneg_right hsb
      norm_num [EPS]
    have hb2 : (2 : ℚ) ^ 50 * (2 * EPS + EPS * EPS) < 1 := by norm_num [EPS]
    nlinarith
  have hP0 : (0 : ℚ) ≤ (F64.mulNat dim (scaleF64 size m)).val := by
    have : (0 : ℚ) ≤ (dim : ℚ) * (scaleF64 size m).val * (1 - EPS) := by
      have hE : (0 : ℚ) ≤ 1 - EPS := by norm_num [EPS]
      have := mul_nonneg (mul_nonneg hdq hS0.le) hE
      linarith
    linarith
  rw [hfl]
  have hfloor : ⌊(F64.mulNat dim (scaleF64 size m)).val⌋₊ < size + 1 := by
    rw [Nat.floor_lt hP0]
    push_cast
    linarith
  omega

lemma pyResizeDim_self_ge (size m : ℕ) (hm : 0 < m) (hsize : 0 < size)
    (hbig : size ≤ 2 ^ 50) :
    size - 1 ≤ pyResizeDim m size m := by
  obtain ⟨hfl, hlb, hub⟩ := pyResizeDim_floor m size m hm hsize hm
  obtain ⟨hS0, hSlb, hSub⟩ := scaleF64_bounds size m hsize hm
  have hmq : (0 : ℚ) < m := by exact_mod_cast hm
  have hsq : (0 : ℚ) < size := by exact_mod_cast hsize
  have hsb : (size : ℚ) ≤ 2 ^ 50 := by exact_mod_cast hbig
  have hid : (m : ℚ) * (((size : ℚ) / m) * (1 - EPS)) = (size : ℚ) * (1 - EPS) := by
    field_simp
  have h1 : (size : ℚ) * (1 - EPS) ≤ (m : ℚ) * (scaleF64 size m).val := by
    calc (size : ℚ) * (1 - EPS) = (m : ℚ) * (((size : ℚ) / m) * (1 - EPS)) := hid.symm
    _ ≤ (m : ℚ) * (scaleF64 size m).val := mul_le_mul_of_nonneg_left hSlb (by positivity)
  have h2 : (size : ℚ) * (1 - EPS) * (1 - EPS) ≤ (F64.mulNat m (scaleF64 size m)).val := by
    calc (size : ℚ) * (1 - EPS) * (1 - EPS)
        ≤ (m : ℚ) * (scaleF64 size m).val * (1 - EPS) := by
          have hE : (0 : ℚ) ≤ 1 - EPS := by norm_num [EPS]
          exact mul_le_mul_of_nonneg_right h1 hE
    _ ≤ (F64.mulNat m (scaleF64 size m)).val := hlb
  have h3 : (size : ℚ) - 1 / 2 < (size : ℚ) * (1 - EPS) * (1 - EPS) := by
    have hb1 : (size : ℚ) * (2 * EPS) ≤ (2 : ℚ) ^ 50 * (2 * EPS) := by
      apply mul_le_mul_of_nonneg_right hsb
      norm_num [EPS]
    have hb2 : (2 : ℚ) ^ 50 * (2 * EPS) ≤ 1 / 2 := by norm_num [EPS]
    nlinarith [mul_nonneg (mul_nonneg hsq.le (by norm_num [EPS] : (0:ℚ) ≤ EPS)) (by norm_num [EPS] : (0:ℚ) ≤ EPS)]
  rw [hfl]
  refine Nat.le_floor ?_
  have hcast : ((size - 1 : ℕ) : ℚ) ≤ (size : ℚ) - 1 / 2 := by
    rcases Nat.eq_or_lt_of_le hsize with h | h
    · rw [← h]
      norm_num
    · rw [Nat.cast_sub (by omega)]
      push_cast
      linarith
  linarith

lemma pyResizeDim_cross (a b size m : ℕ) (ha : 0 < a) (hb : 0 < b)
    (hsize : 0 < size) (hm : 0 < m) (hbig : size ≤ 2 ^ 14)
    (hsmall : a * b ≤ m * 2 ^ 32) :
    pyResizeDim b size m * a ≤ pyResizeDim a size m * b + b := by
  obtain ⟨hflA, hlbA, hubA⟩ := pyResizeDim_floor a size m ha hsize hm
  obtain ⟨hflB, hlbB, hubB⟩ := pyResizeDim_floor b size m hb hsize hm
  obtain ⟨hS0, hSlb, hSub⟩ := scaleF64_bounds size m hsize hm
  have hmq : (0 : ℚ) < m := by exact_mod_cast hm
  have haq : (0 : ℚ) < a := by exact_mod_cast ha
  have hbq : (0 : ℚ) < b := by exact_mod_cast hb
  have habS : (a : ℚ) * b * (scaleF64 size m).val ≤ 2 ^ 46 * (1 + EPS) := by
    have hab : (a : ℚ) * b ≤ (m : ℚ) * 2 ^ 32 := by exact_mod_cast hsmall
    have hsb : (size : ℚ) ≤ 2 ^ 14 := by exact_mod_cast hbig
    calc (a : ℚ) * b * (scaleF64 size m).val
        ≤ ((m : ℚ) * 2 ^ 32) * (((size : ℚ) / m) * (1 + EPS)) := by
          apply mul_le_mul hab hSub hS0.le (by positivity)
    _ = (size : ℚ) * (2 ^ 32 * (1 + EPS)) := by field_simp; ring
    _ ≤ (2 : ℚ) ^ 14 * (2 ^ 32 * (1 + EPS)) := by
        apply mul_le_mul_of_nonneg_right hsb
        norm_num [EPS]
    _ = 2 ^ 46 * (1 + EPS) := by ring
  have hkey : 2 * EPS * ((a : ℚ) * b * (scaleF64 size m).val) < 1 := by
    have hstep : 2 * EPS * ((a : ℚ) * b * (scaleF64 size m).val)
        ≤ 2 * EPS * (2 ^ 46 * (1 + EPS)) := by
      apply mul_le_mul_of_nonneg_left habS
      norm_num [EPS]
    have hnum : 2 * EPS * ((2 : ℚ) ^ 46 * (1 + EPS)) < 1 := by norm_num [EPS]
    linarith
  have hPB0 : (0 : ℚ) ≤ (F64.mulNat b (scaleF64 size m)).val := by
    have hE : (0 : ℚ) ≤ 1 - EPS := by norm_num [EPS]
    have := mul_nonneg (mul_nonneg hbq.le hS0.le) hE
    linarith
  have hfloorB : ((pyResizeDim b size m : ℕ) : ℚ) ≤ (F64.mulNat b (scaleF64 size m)).val := by
    rw [hflB]
    exact Nat.floor_le hPB0
  have hfloorA : (F64.mulNat a (scaleF64 size m)).val < ((pyResizeDim a size m : ℕ) : ℚ) + 1 := by
    rw [hflA]
    exact Nat.lt_floor_add_one _
  have c1 : ((pyResizeDim b size m : ℕ) : ℚ) * a
      ≤ (a : ℚ) * b * (scaleF64 size m).val + EPS * ((a : ℚ) * b * (scaleF64 size m).val) := by
    have step : ((pyResizeDim b size m : ℕ) : ℚ) * a
        ≤ (b : ℚ) * (scaleF64 size m).val * (1 + EPS) * a :=
      mul_le_mul_of_nonneg_right (le_trans hfloorB hubB) haq.le
    have expand : (b : ℚ) * (scaleF64 size m).val * (1 + EPS) * a
        = (a : ℚ) * b * (scaleF64 size m).val + EPS * ((a : ℚ) * b * (scaleF64 size m).val) := by
      ring
    linarith
  have c2 : (a : ℚ) * b * (scaleF64 size m).val - EPS * ((a : ℚ) * b * (scaleF64 size m).val)
      < (((pyResizeDim a size m : ℕ) : ℚ) + 1) * b := by
    have step : (a : ℚ) * (scaleF64 size m).val * (1 - EPS) * b
        < (((pyResizeDim a size m : ℕ) : ℚ) + 1) * b :=
      mul_lt_mul_of_pos_right (lt_of_le_of_lt hlbA hfloorA) hbq
    have expand : (a : ℚ) * (scaleF64 size m).val * (1 - EPS) * b
        = (a : ℚ) * b * (scaleF64 size m).val - EPS * ((a : ℚ) * b * (scaleF64 size m).val) := by
      ring
    linarith
  have final : ((pyResizeDim b size m : ℕ) : ℚ) * a
      < ((pyResizeDim a size m : ℕ) : ℚ) * b + b + 1 := by
    have expand2 : (((pyResizeDim a size m : ℕ) : ℚ) + 1) * b
        = ((pyResizeDim a size m : ℕ) : ℚ) * b + b := by ring
    rw [expand2] at c2
    linarith
  have hnat : pyResizeDim b size m * a < pyResizeDim a size m * b + b + 1 := by
    exact_mod_cast final
  omega

lemma blendPix_zero (d s : Pix) : blendPix d s 0 = d := by
  simp [blendPix]

lemma compose_final_image_mask_keeps_background (bww ro : Img) (i j : ℕ)
    (hi : i < ro.width) (hj : j < ro.height)
    (hiw : ro.width ≤ bww.width) (hjh : ro.height ≤ bww.height)
    (ha : ((ro.convert Mode.RGBA).pix i j).a = 0) :
    (compose_final_image bww ro).pix
        ((bww.width - ro.width) / 2 + i) ((bww.height - ro.height) / 2 + j)
      = bww.pix ((bww.width - ro.width) / 2 + i) ((bww.height - ro.height) / 2 + j) := by
  set X := (bww.width - ro.width) / 2 + i with hXdef
  set Y := (bww.height - ro.height) / 2 + j with hYdef
  have hXa : (bww.width - ro.width) / 2 ≤ X := Nat.le_add_right _ _
  have hXb : X < (bww.width - ro.width) / 2 + ro.width := Nat.add_lt_add_left hi _
  have hYa : (bww.height - ro.height) / 2 ≤ Y := Nat.le_add_right _ _
  have hYb : Y < (bww.height - ro.height) / 2 + ro.height := Nat.add_lt_add_left hj _
  have hXw : X < bww.width := by
    have h1 : (bww.width - ro.width) / 2 ≤ bww.width - ro.width := Nat.div_le_self _ _
    omega
  have hYh : Y < bww.height := by
    have h1 : (bww.height - ro.height) / 2 ≤ bww.height - ro.height := Nat.div_le_self _ _
    omega
  have hXi : X - (bww.width - ro.width) / 2 = i := by omega
  have hYj : Y - (bww.height - ro.height) / 2 = j := by omega
  have hXw0 : X < 0 + bww.width := by omega
  have hYh0 : Y < 0 + bww.height := by omega
  have hcw : (ro.convert Mode.RGBA).width = ro.width := rfl
  have hch : (ro.convert Mode.RGBA).height = ro.height := rfl
  simp only [compose_final_image, Img.paste, Image.new]
  rw [hcw, hch, hXi, hYj, ha]
  rw [if_pos ⟨hXa, hXb, hYa, hYb⟩, blendPix_zero,
    if_pos ⟨Nat.zero_le _, hXw0, Nat.zero_le _, hYh0⟩]
  simp

/-- C5 counterexample: a 50x97 source at the valid size 25 takes the composite
branch, yet the pasted aspect-preserved original is 12x24: the double-rounded
product `int(97 * (25/97))` falls one below 25, so
`max(output_width, output_height)` is 24, not `size`. -/
theorem C5_counterexample :
    is_square 50 97 = false ∧
    (Defaults.SMALLEST_SIZE ≤ 25 ∧ 25 ≤ Defaults.LARGEST_SIZE) ∧
    (create_blurred_overlay img5097 25).width = 25 ∧
    (create_blurred_overlay img5097 25).height = 25 ∧
    (resize_original img5097 25).width = 12 ∧
    (resize_original img5097 25).height = 24 ∧
    max (resize_original img5097 25).width (resize_original img5097 25).height ≠ 25 := by
  refine ⟨?_, by decide, create_blurred_overlay_width img5097 25,
    create_blurred_overlay_height img5097 25, by decide, by decide, by decide⟩
  simp only [is_square, Defaults.SQUARE_PERCENT, decide_eq_false_iff_not, not_and, not_le]
  intro h
  norm_num at h

/-- C5 (amended): the composite transform's canvas is exactly `size x size`;
the pasted aspect-preserved original fits inside it (both dimensions at most
`size`) and its longer dimension equals `size` up to the binary64 rounding
shortfall of at most one pixel (`size - 1 ≤ max(width, height) ≤ size`); the
aspect ratio of the original is preserved to within one unit of integer
rounding per dimension; and at the centred integer offsets
`((size - w)/2, (size - h)/2)` the paste uses the pasted image's own alpha as
mask: wherever that alpha is 0, the background pixel is left intact.  The
dimension bounds `2^32` delimit the domain on which the binary64 model is
exact (integers exactly representable, products within precision); every
decodable raster satisfies them. -/
theorem C5_composite_shape (image : Img) (size : ℕ)
    (hw : 0 < image.width) (hh : 0 < image.height)
    (hwB : image.width ≤ 2 ^ 32) (hhB : image.height ≤ 2 ^ 32)
    (hs : Defaults.SMALLEST_SIZE ≤ size ∧ size ≤ Defaults.LARGEST_SIZE) :
    (create_blurred_overlay image size).width = size ∧
    (create_blurred_overlay image size).height = size ∧
    (resize_original image size).width ≤ size ∧
    (resize_original image size).height ≤ size ∧
    size - 1 ≤ max (resize_original image size).width (resize_original image size).height ∧
    max (resize_original image size).width (resize_original image size).height ≤ size ∧
    ((resize_original image size).height * image.width
        ≤ (resize_original image size).width * image.height + image.height ∧
      (resize_original image size).width * image.height
        ≤ (resize_original image size).height * image.width + image.width) ∧
    ∀ i j, i < (resize_original image size).width →
      j < (resize_original image size).height →
      (((resize_original image size).convert Mode.RGBA).pix i j).a = 0 →
      (create_blurred_overlay image size).pix
          ((size - (resize_original image size).width) / 2 + i)
          ((size - (resize_original image size).height) / 2 + j)
        = (blurred_with_white_layer image size).pix
          ((size - (resize_original image size).width) / 2 + i)
          ((size - (resize_original image size).height) / 2 + j) := by
  have hsize : 0 < size := lt_of_lt_of_le (by decide) hs.1
  have hbig50 : size ≤ 2 ^ 50 := le_trans hs.2 (by decide)
  have hbig14 : size ≤ 2 ^ 14 := le_trans hs.2 (by decide)
  have hm : 0 < max image.width image.height := lt_of_lt_of_le hw (le_max_left _ _)
  have hroW : (resize_original image size).width ≤ size := by
    rw [resize_original_width_def]
    exact pyResizeDim_le image.width size _ hw (le_max_left _ _) hsize hbig50
  have hroH : (resize_original image size).height ≤ size := by
    rw [resize_original_height_def]
    exact pyResizeDim_le image.height size _ hh (le_max_right _ _) hsize hbig50
  have hmaxge : size - 1
      ≤ max (resize_original image size).width (resize_original image size).height := by
    rcases max_cases image.width image.height with ⟨hmx, hle⟩ | ⟨hmx, hlt⟩
    · refine le_trans ?_ (le_max_left _ _)
      rw [resize_original_width_def, hmx]
      exact pyResizeDim_self_ge size image.width hw hsize hbig50
    · refine le_trans ?_ (le_max_right _ _)
      rw [resize_original_height_def, hmx]
      exact pyResizeDim_self_ge size image.height hh hsize hbig50
  have hsmall1 : image.width * image.height ≤ max image.width image.height * 2 ^ 32 := by
    rcases le_total image.width image.height with h1 | h1
    · rw [max_eq_right h1, Nat.mul_comm]
      exact Nat.mul_le_mul_left _ hwB
    · rw [max_eq_left h1]
      exact Nat.mul_le_mul_left _ hhB
  have hcross1 : (resize_original image size).height * image.width
      ≤ (resize_original image size).width * image.height + image.height := by
    rw [resize_original_width_def, resize_original_height_def]
    exact pyResizeDim_cross image.width image.height size _ hw hh hsize hm hbig14 hsmall1
  have hcross2 : (resize_original image size).width * image.height
      ≤ (resize_original image size).height * image.width + image.width := by
    rw [resize_original_width_def, resize_original_height_def]
    exact pyResizeDim_cross image.height image.width size _ hh hw hsize hm hbig14
      (by rw [Nat.mul_comm]; exact hsmall1)
  refine ⟨create_blurred_overlay_width image size, create_blurred_overlay_height image size,
    hroW, hroH, hmaxge, max_le hroW hroH, ⟨hcross1, hcross2⟩, ?_⟩
  intro i j hi hj ha
  have hb := compose_final_image_mask_keeps_background
    (blurred_with_white_layer image size) (resize_original image size) i j hi hj
    (by rw [blurred_with_white_layer_width]; exact hroW)
    (by rw [blurred_with_white_layer_height]; exact hroH) ha
  rw [blurred_with_white_layer_width, blurred_with_white_layer_height] at hb
  exact hb

/-- C5 witness: the amended composite guarantees instantiated at the 202x800
sample and size 300 (the pasted region is 75x300). -/
theorem C5_composite_shape_witness :
    0 < tallImage.width ∧ 0 < tallImage.height ∧
    tallImage.width ≤ 2 ^ 32 ∧ tallImage.height ≤ 2 ^ 32 ∧
    (Defaults.SMALLEST_SIZE ≤ 300 ∧ 300 ≤ Defaults.LARGEST_SIZE) ∧
    ((create_blurred_overlay tallImage 300).width = 300 ∧
      (create_blurred_overlay tallImage 300).height = 300 ∧
      (resize_original tallImage 300).width ≤ 300 ∧
      (resize_original tallImage 300).height ≤ 300 ∧
      300 - 1 ≤ max (resize_original tallImage 300).width (resize_original tallImage 300).height ∧
      max (resize_original tallImage 300).width (resize_original tallImage 300).height ≤ 300 ∧
      ((resize_original tallImage 300).height * tallImage.width
          ≤ (resize_original tallImage 300).width * tallImage.height + tallImage.height ∧
        (resize_original tallImage 300).width * tallImage.height
          ≤ (resize_original tallImage 300).height * tallImage.width + tallImage.width) ∧
      ∀ i j, i < (resize_original tallImage 300).width →
        j < (resize_original tallImage 300).height →
        (((resize_original tallImage 300).convert Mode.RGBA).pix i j).a = 0 →
        (create_blurred_overlay tallImage 300).pix
            ((300 - (resize_original tallImage 300).width) / 2 + i)
            ((300 - (resize_original tallImage 300).height) / 2 + j)
          = (blurred_with_white_layer tallImage 300).pix
            ((300 - (resize_original tallImage 300).width) / 2 + i)
            ((300 - (resize_original tallImage 300).height) / 2 + j)) :=
  ⟨by decide, by decide, by decide, by decide, by decide,
    C5_composite_shape tallImage 300 (by decide) (by decide) (by decide) (by decide) (by decide)⟩

lemma filter_isSome_add_isNone_length {α : Type} (l : List (Option α)) :
    (l.filter Option.isSome).length + (l.filter Option.isNone).length = l.length := by
  induction l with
  | nil => rfl
  | cons o t ih => cases o <;> simp [List.filter] <;> omega

lemma folder_to_process_count (ex : String → Bool) (files : List BatchFile) (size : ℕ)
    (extension output_folder : String) (fuel : ℕ) :
    (folder_to_process ex files size extension output_folder fuel).processed_count
      = (batchResults ex files size extension output_folder fuel).length := by
  by_cases h : (batchResults ex files size extension output_folder fuel).length = 0
  · simp [folder_to_process, h]
  · simp [folder_to_process, h]

/-- C1 counterexample: a batch with one decodable PNG and one corrupt PNG
reports `processed_count = 2` — the corrupt file's completed future is counted
— although only 1 pipeline succeeded, so the reported count is not the number
of successfully processed images. -/
theorem C1_count_counterexample :
    (folder_to_process (fun _ => false) [("a.png", some sampleImage), ("b.png", none)]
        300 "org" "out" 1).processed_count = 2 ∧
    successCount (fun _ => false) [("a.png", some sampleImage), ("b.png", none)]
        300 "org" "out" 1 = 1 ∧
    (folder_to_process (fun _ => false) [("a.png", some sampleImage), ("b.png", none)]
        300 "org" "out" 1).processed_count
      ≠ successCount (fun _ => false) [("a.png", some sampleImage), ("b.png", none)]
        300 "org" "out" 1 := by
  refine ⟨?_, ?_, ?_⟩ <;> decide

/-- C1 (amended): after every dispatched per-file task has completed, the
Batch Driver reports a count equal to the number of dispatched tasks — one per
eligible file — i.e. successes plus failures; a file whose pipeline fails (for
example a corrupt file) is still included in the reported count. -/
theorem C1_count_amended (ex : String → Bool) (files : List BatchFile) (size : ℕ)
    (extension output_folder : String) (fuel : ℕ) :
    (folder_to_process ex files size extension output_folder fuel).processed_count
      = (files.filter fun f => eligible_file f.1).length ∧
    (folder_to_process ex files size extension output_folder fuel).processed_count
      = successCount ex files size extension output_folder fuel
        + failureCount ex files size extension output_folder fuel := by
  constructor
  · rw [folder_to_process_count, batchResults, List.length_map]
  · rw [folder_to_process_count, successCount, failureCount,
      filter_isSome_add_isNone_length]

/-- C8: when the final count is zero the batch reports the distinct
warning-level message "No images processed. ..." instead of the normal
"Processed N images." message; when nonzero it reports "Processed N images."
at info level; in neither case is the summary an error-level outcome (and the
driver is a total function — it returns a summary rather than raising). -/
theorem C8_zero_is_warning (ex : String → Bool) (files : List BatchFile) (size : ℕ)
    (extension output_folder : String) (fuel : ℕ) :
    ((folder_to_process ex files size extension output_folder fuel).processed_count = 0 →
      (folder_to_process ex files size extension output_folder fuel).message
          = "No images processed. Please check the input folder for valid image files." ∧
      (folder_to_process ex files size extension output_folder fuel).level
          = LogLevel.warning) ∧
    ((folder_to_process ex files size extension output_folder fuel).processed_count ≠ 0 →
      (folder_to_process ex files size extension output_folder fuel).message
          = "Processed "
              ++ toString (folder_to_process ex files size extension output_folder fuel).processed_count
              ++ " images." ∧
      (folder_to_process ex files size extension output_folder fuel).level
          = LogLevel.info) ∧
    (folder_to_process ex files size extension output_folder fuel).level ≠ LogLevel.error := by
  by_cases h : (batchResults ex files size extension output_folder fuel).length = 0
  · refine ⟨fun _ => ?_, fun hne => ?_, ?_⟩
    · simp [folder_to_process, h]
    · exact absurd (by simp [folder_to_process, h]) hne
    · simp [folder_to_process, h]
  · refine ⟨fun h0 => ?_, fun _ => ?_, ?_⟩
    · exact absurd (by simpa [folder_to_process_count] using h0) h
    · simp [folder_to_process, h]
    · simp [folder_to_process, h]

/-- C8 witness: an empty batch yields the warning report; a singleton batch
yields the info report "Processed 1 images.". -/
theorem C8_zero_is_warning_witness :
    ((folder_to_process (fun _ => false) [] 300 "org" "out" 1).processed_count = 0 ∧
      ((folder_to_process (fun _ => false) [] 300 "org" "out" 1).message
          = "No images processed. Please check the input folder for valid image files." ∧
        (folder_to_process (fun _ => false) [] 300 "org" "out" 1).level = LogLevel.warning)) ∧
    ((folder_to_process (fun _ => false) [("a.png", some sampleImage)] 300 "org" "out" 1).processed_count ≠ 0 ∧
      ((folder_to_process (fun _ => false) [("a.png", some sampleImage)] 300 "org" "out" 1).message
          = "Processed "
              ++ toString (folder_to_process (fun _ => false) [("a.png", some sampleImage)] 300 "org" "out" 1).processed_count
              ++ " images." ∧
        (folder_to_process (fun _ => false) [("a.png", some sampleImage)] 300 "org" "out" 1).level
          = LogLevel.info)) :=
  ⟨⟨by decide, (C8_zero_is_warning (fun _ => false) [] 300 "org" "out" 1).1 (by decide)⟩,
    ⟨by decide,
      (C8_zero_is_warning (fun _ => false) [("a.png", some sampleImage)] 300 "org" "out" 1).2.1
        (by decide)⟩⟩

/-- C9: batch eligibility is a raw lowercase suffix match over the valid
extension list with no dot separator required — `"notapng"` (no dot at all) is
eligible — and for a dotless filename under the keep-extension sentinel the
derived output extension is the whole filename, so the computed output name is
the filename duplicated around a dot: `"mypng"` becomes `"mypng.mypng"`. -/
theorem C9_suffix_eligibility :
    (∀ filename : String, eligible_file filename = true ↔
      ∃ e ∈ Defaults.VALID_EXTENSIONS, strEndsWith (strLower filename) e = true) ∧
    eligible_file "notapng" = true ∧
    "notapng".data.all (fun c => c != '.') = true ∧
    eligible_file "mypng" = true ∧
    resolved_output_extension "mypng" Defaults.KEEP_EXTENSION = "mypng" ∧
    output_filename "mypng" Defaults.KEEP_EXTENSION = "mypng.mypng" := by
  refine ⟨?_, by decide, by decide, by decide, by decide, by decide⟩
  intro filename
  simp [eligible_file, List.any_eq_true]

lemma uniqueLoop_finds_first_free (ex : String → Bool) (base extension : String) :
    ∀ fuel counter,
      (∃ k, k < fuel ∧ ex (collisionCandidate base extension (counter + k)) = false) →
      ∃ N, counter ≤ N ∧ ex (collisionCandidate base extension N) = false ∧
        (∀ m, counter ≤ m → m < N → ex (collisionCandidate base extension m) = true) ∧
        uniqueLoop ex base extension fuel (counter + 1) (collisionCandidate base extension counter)
          = collisionCandidate base extension N := by
  intro fuel
  induction fuel with
  | zero =>
    rintro counter ⟨k, hk, -⟩
    exact absurd hk (Nat.not_lt_zero k)
  | succ f ih =>
    rintro counter ⟨k, hk, hfree⟩
    by_cases hc : ex (collisionCandidate base extension counter) = true
    · have hk0 : k ≠ 0 := by
        rintro rfl
        rw [Nat.add_zero] at hfree
        rw [hfree] at hc
        cases hc
      obtain ⟨k', rfl⟩ := Nat.exists_eq_succ_of_ne_zero hk0
      have hnext : ∃ k, k < f ∧
          ex (collisionCandidate base extension ((counter + 1) + k)) = false := by
        refine ⟨k', by omega, ?_⟩
        have harg : (counter + 1) + k' = counter + (k' + 1) := by omega
        rw [harg]
        exact hfree
      obtain ⟨N, hN1, hN2, hN3, hN4⟩ := ih (counter + 1) hnext
      refine ⟨N, by omega, hN2, ?_, ?_⟩
      · intro m hm1 hm2
        rcases Nat.eq_or_lt_of_le hm1 with rfl | hm
        · exact hc
        · exact hN3 m hm hm2
      · rw [uniqueLoop, if_pos hc]
        exact hN4
    · have hcf : ex (collisionCandidate base extension counter) = false := by
        simpa using hc
      refine ⟨counter, le_refl _, hcf, fun m h1 h2 => absurd h2 (by omega), ?_⟩
      rw [uniqueLoop, if_neg hc]

/-- C6: if the original path does not exist, `get_unique_output_path` returns
it unchanged; otherwise it splits the path into base and extension once and
returns `base (N)ext` for the least `N ≥ 1` whose candidate does not exist —
every candidate with a smaller index exists.  The hypotheses provide the
termination certificate of the Python `while` loop: some candidate index `n`
is free and the fuel covers it. -/
theorem C6_unique_output_path (ex : String → Bool) (output_path : String) (n fuel : ℕ)
    (hn : 1 ≤ n)
    (hfree : ex (collisionCandidate (splitext output_path).1 (splitext output_path).2 n) = false)
    (hfuel : n + 1 ≤ fuel) :
    (ex output_path = false → get_unique_output_path ex output_path fuel = output_path) ∧
    (ex output_path = true → ∃ N, 1 ≤ N ∧
      ex (collisionCandidate (splitext output_path).1 (splitext output_path).2 N) = false ∧
      (∀ m, 1 ≤ m → m < N →
        ex (collisionCandidate (splitext output_path).1 (splitext output_path).2 m) = true) ∧
      get_unique_output_path ex output_path fuel
        = collisionCandidate (splitext output_path).1 (splitext output_path).2 N) := by
  obtain ⟨f, rfl⟩ : ∃ f, fuel = f + 1 := ⟨fuel - 1, by omega⟩
  constructor
  · intro h0
    simp only [get_unique_output_path]
    rw [uniqueLoop, if_neg (by simp [h0])]
  · intro h1
    simp only [get_unique_output_path]
    rw [uniqueLoop, if_pos h1]
    have hex : ∃ k, k < f ∧
        ex (collisionCandidate (splitext output_path).1 (splitext output_path).2 (1 + k))
          = false := by
      refine ⟨n - 1, by omega, ?_⟩
      have harg : 1 + (n - 1) = n := by omega
      rw [harg]
      exact hfree
    obtain ⟨N, hN1, hN2, hN3, hN4⟩ :=
      uniqueLoop_finds_first_free ex (splitext output_path).1 (splitext output_path).2 f 1 hex
    exact ⟨N, hN1, hN2, hN3, hN4⟩

/-- C6 witness: with `out.png` and `out (1).png` present, probing starts at
`(1)` and the first free candidate is `out (2).png`. -/
theorem C6_unique_output_path_witness :
    (1 ≤ 2 ∧
      witnessFS (collisionCandidate (splitext "out.png").1 (splitext "out.png").2 2) = false ∧
      2 + 1 ≤ 3) ∧
    (witnessFS "out.png" = false → get_unique_output_path witnessFS "out.png" 3 = "out.png") ∧
    (witnessFS "out.png" = true → ∃ N, 1 ≤ N ∧
      witnessFS (collisionCandidate (splitext "out.png").1 (splitext "out.png").2 N) = false ∧
      (∀ m, 1 ≤ m → m < N →
        witnessFS (collisionCandidate (splitext "out.png").1 (splitext "out.png").2 m) = true) ∧
      get_unique_output_path witnessFS "out.png" 3
        = collisionCandidate (splitext "out.png").1 (splitext "out.png").2 N) :=
  ⟨⟨by decide, by decide, by decide⟩,
    (C6_unique_output_path witnessFS "out.png" 2 3 (by decide) (by decide) (by decide)).1,
    (C6_unique_output_path witnessFS "out.png" 2 3 (by decide) (by decide) (by decide)).2⟩
